import Mathlib

/-!
# Verification of fdscrape (fdscrape.py)

A shallow embedding of the core logic of `fdscrape.py`, an F-droid source
code scraper, together with theorems settling a list of claims about it.

Modelling conventions:
* HTML querying (BeautifulSoup) is an external capability: fetched pages are
  given as structured records holding exactly the pieces of text the code
  reads out of the soup.
* Network fetches are modelled by a `FetchResult` input describing the
  outcome the code would observe (`ok page` or `httpError`).
* Python `int()` on the bar-count strings is modelled by `String.toInt?`
  after comma stripping (the code's `int(r.replace(',', ''))`).
* Python floats are modelled by exact rationals `ℚ`; character predicates
  (`str.isalnum`, `str.isspace`, `str.lower`) are modelled on their ASCII
  fragment, which covers every input the claims mention.
* Filesystem and process effects are modelled by explicit effect lists and
  result constructors (`sys.exit(1)` becomes an `exited 1` result, etc.).
-/

namespace Fdscrape

/-- Outcome of a `urllib.request.urlopen` call as the code observes it:
either a fetched page (already parsed into the fields the code reads) or an
`urllib.error.HTTPError`. -/
inductive FetchResult (α : Type) where
  | ok (page : α)
  | httpError
deriving DecidableEq, Repr

/-- The pieces of a Google Play detail page that `getPlayStats` reads.
`ratingBarTexts` is `none` when `soup.find("div", class_="rating-histogram")`
finds nothing, otherwise the list of `bar-number` span texts in on-page
order (most-stars-first).  The remaining extended fields (description,
contact links, infobox, reviews) are abstracted to the one value a claim
mentions: the description length. -/
structure PlayPage where
  ratingBarTexts : Option (List String)
  descriptionLength : Nat
deriving DecidableEq, Repr

/-- Digit-string accumulator for `parseIntChars`. -/
def parseDigitsAux : List Char → Nat → Option Nat
  | [], acc => some acc
  | c :: cs, acc => if c.isDigit then parseDigitsAux cs (acc * 10 + (c.toNat - 48)) else none

/-- Python `int()` on a plain (optionally signed) numeral string: `none`
models the `ValueError` raised on anything else. -/
def parseIntChars : List Char → Option Int
  | [] => none
  | '-' :: rest => if rest = [] then none else (parseDigitsAux rest 0).map (fun n => -(n : Int))
  | '+' :: rest => if rest = [] then none else (parseDigitsAux rest 0).map (fun n => (n : Int))
  | cs => (parseDigitsAux cs 0).map (fun n => (n : Int))

/-- `int(r.replace(',', ''))`: strip thousands separators, then parse as an
integer (`none` models the `ValueError` Python would raise). -/
def parseCount (s : String) : Option Int :=
  parseIntChars (s.data.filter (fun c => c ≠ ','))

/-- The weighted sum `sum(weight * count for weight, count in ratingWeights.items())`
where `ratingWeights = { i + 1: num for i, num in enumerate(ratings) }`:
the accumulator `w` is the current 1-based star weight. -/
def weightedSum : Int → List Int → Int
  | _, [] => 0
  | w, c :: cs => w * c + weightedSum (w + 1) cs

/-- Everything `getPlayStats` puts into its `stats` dictionary that the
claims talk about: the per-star counts in ascending star order (the
`star_i` entries), the weighted mean, the total count, and the description
length. -/
structure RatingStatistics where
  starCounts : List Int
  play_star_mean : ℚ
  play_star_count : Int
  play_description_length : Nat
deriving DecidableEq, Repr

/-- `getPlayStats` (fdscrape.py lines 155-262), histogram core.
Returns `.ok none` for the soft-failure paths (`return` with no value in
Python), `.error ()` when `int()` would raise on a bar text, and
`.ok (some stats)` otherwise. -/
def getPlayStats (fetch : FetchResult PlayPage) : Except Unit (Option RatingStatistics) :=
  match fetch with
  | .httpError => .ok none
  | .ok page =>
    match page.ratingBarTexts with
    | none => .ok none
    | some texts =>
      match texts.mapM parseCount with
      | none => .error ()
      | some parsed =>
        let ratings := parsed.reverse
        let ratingCount := ratings.sum
        if ratingCount = 0 then .ok none
        else
          let theSum := weightedSum 1 ratings
          let theMean : ℚ := (theSum : ℚ) / (ratingCount : ℚ)
          .ok (some { starCounts := ratings
                      play_star_mean := theMean
                      play_star_count := ratingCount
                      play_description_length := page.descriptionLength })

/-! ## prefixFromLink (fdscrape.py lines 60-68) -/

/-- Python `s.replace(pat, '', 1)`: remove the leftmost occurrence of `pat`
(if any) from `s`. -/
def removeFirstOcc : List Char → List Char → List Char
  | [], _ => []
  | c :: rest, pat =>
    if pat.isPrefixOf (c :: rest) then (c :: rest).drop pat.length
    else c :: removeFirstOcc rest pat

/-- Index of the rightmost occurrence of `pat` starting at or below `i`:
`some j` when `pat` is a prefix of `s.drop j` for the largest such `j ≤ i`. -/
def lastMatchFrom (s pat : List Char) : Nat → Option Nat
  | 0 => if pat.isPrefixOf s then some 0 else none
  | i + 1 => if pat.isPrefixOf (s.drop (i + 1)) then some (i + 1) else lastMatchFrom s pat i

/-- Python `s.rsplit(pat, maxsplit=1)[0]`: everything before the rightmost
occurrence of `pat`, or all of `s` when `pat` does not occur. -/
def rsplitBefore (s pat : List Char) : List Char :=
  match lastMatchFrom s pat s.length with
  | some i => s.take i
  | none => s

/-- Python `pat in s` (substring containment). -/
def containsSub (pat : List Char) : List Char → Bool
  | [] => pat.isPrefixOf []
  | c :: rest => pat.isPrefixOf (c :: rest) || containsSub pat rest

/-- The fixed repository prefix of `prefixFromLink`. -/
def repoPrefix : List Char := "https://f-droid.org/repository/browse/?fdid=".data

/-- The fixed page-number-suffix marker of `prefixFromLink`. -/
def repoSuffix : List Char := "&fdpage=".data

/-- `prefixFromLink` (fdscrape.py lines 60-68): strip the repository prefix
(first occurrence, via `str.replace(..., 1)`), then, if the page-number
marker occurs (`repoSuffix in s`), keep what precedes its last occurrence
(`str.rsplit(..., maxsplit=1)[0]`). -/
def prefixFromLink (s : String) : String :=
  let s1 := removeFirstOcc s.data repoPrefix
  String.mk (if containsSub repoSuffix s1 then rsplitBefore s1 repoSuffix else s1)

/-! ## Safe archive-name derivation (fdscrape.py lines 314-321) -/

/-- One step of the `for c in name` loop: alphanumeric characters are
lower-cased and kept, whitespace becomes `'_'`, everything else is dropped.
`Char.isAlphanum`, `Char.isWhitespace` and `Char.toLower` model the ASCII
fragment of Python's `str.isalnum`, `str.isspace` and `str.lower`. -/
def safeNameStep (acc : List Char) (c : Char) : List Char :=
  if c.isAlphanum then acc ++ [c.toLower]
  else if c.isWhitespace then acc ++ ['_']
  else acc

/-- The tar-gz filename computed from the display name in `getAllApps`:
the filtered, lower-cased name with the fixed `".tar.gz"` suffix. -/
def safeArchiveName (name : String) : String :=
  String.mk (name.data.foldl safeNameStep []) ++ ".tar.gz"

/-! ## getPackage (fdscrape.py lines 31-58) -/

/-- What the code observes while stream-downloading into the exclusively
created (`'xb'`) destination file. -/
inductive DownloadOutcome where
  | completed
  | targetExists
  | interrupted
deriving DecidableEq, Repr

/-- The directories `getPackage` finds in the destination's parent after
unpacking (`filename.parent.glob("*/") ... if x.is_dir()`). -/
structure UnpackWorld where
  dirsInParent : List String
deriving DecidableEq, Repr

/-- How one `getPackage` call ends.  `exited code destFileExists` models
`sys.exit(code)` with the given final state of the destination path;
`skippedExisting` is the `FileExistsError` early return; `layoutError` is
the raised `OSError("Too many directories in file!")`; `finished` is normal
completion.  The two `Bool` fields record whether the `mv ... src` rename
and the archive deletion were performed. -/
inductive GetPackageResult where
  | exited (code : Nat) (destFileExists : Bool)
  | skippedExisting
  | layoutError (renamedToSrc : Bool) (archiveDeleted : Bool)
  | finished (renamedToSrc : Bool) (archiveDeleted : Bool)
deriving DecidableEq, Repr

/-- `getPackage` (fdscrape.py lines 31-58).  On `KeyboardInterrupt` during
streaming the partially written file is removed (`os.remove`) and the
process exits with status 1; on `FileExistsError` the call returns early;
otherwise the archive is unpacked and exactly one directory is expected in
the parent, which is renamed to `src` before the archive is deleted. -/
def getPackage (dl : DownloadOutcome) (w : UnpackWorld) : GetPackageResult :=
  match dl with
  | .targetExists => .skippedExisting
  | .interrupted => .exited 1 false
  | .completed =>
    if w.dirsInParent.length ≠ 1 then .layoutError false false
    else .finished true true

/-! ## Per-app orchestration in getAllApps (fdscrape.py lines 274-325) -/

/-- The externally visible side effects of processing one app: the two
network requests and the filesystem writes. -/
inductive Effect where
  | fetchRatingPage
  | mkdirWorkspace
  | writeRatingFile
  | fetchDetailPage
  | downloadArchive
deriving DecidableEq, Repr

/-- How one app's processing ends when the run continues. -/
inductive AppStep where
  | skippedExisting
  | skippedNoRating
  | skippedNoLink
  | downloaded
deriving DecidableEq, Repr

/-- Uncaught exceptions that abort the whole run: a `ValueError` from
`int()` inside `getPlayStats`, or an HTTP error inside `getDownloadLink`
(whose `urlopen` is not wrapped in any try/except). -/
inductive RunError where
  | ratingParseError
  | detailFetchError
deriving DecidableEq, Repr

/-- The environment one app is processed against: whether its workspace
directory already exists, and the outcomes of the two network lookups.
`detailFetch` carries the optional `source tarball` link found by
`getDownloadLink`. -/
structure AppWorld where
  workspaceExists : Bool
  ratingFetch : FetchResult PlayPage
  detailFetch : FetchResult (Option String)
deriving DecidableEq, Repr

/-- One iteration of the per-app loop in `getAllApps` (lines 274-325):
skip if the workspace directory exists; fetch the Play rating and skip the
app when `getPlayStats` returns `None`; otherwise make the directory and
write `rating.json`; resolve the download link (an HTTP error here is
uncaught and aborts the run) and skip the app when no link is found;
otherwise download the archive. -/
def processApp (w : AppWorld) : Except RunError (AppStep × List Effect) :=
  if w.workspaceExists then .ok (.skippedExisting, [])
  else
    match getPlayStats w.ratingFetch with
    | .error _ => .error .ratingParseError
    | .ok none => .ok (.skippedNoRating, [.fetchRatingPage])
    | .ok (some _) =>
      match w.detailFetch with
      | .httpError => .error .detailFetchError
      | .ok none =>
        .ok (.skippedNoLink,
             [.fetchRatingPage, .mkdirWorkspace, .writeRatingFile, .fetchDetailPage])
      | .ok (some _) =>
        .ok (.downloaded,
             [.fetchRatingPage, .mkdirWorkspace, .writeRatingFile, .fetchDetailPage,
              .downloadArchive])

/-- The app loop of `getAllApps` over the apps of a run: processes apps in
order; an uncaught exception from one app aborts the whole run. -/
def getAllAppsRun (apps : List AppWorld) : Except RunError (List (AppStep × List Effect)) :=
  apps.mapM processApp

/-! ## Concrete fixtures and spec-side models -/

/-- A fetched Play page whose histogram reads `["2","1","1","0","0"]`
most-stars-first, i.e. ascending counts `[0,0,1,1,2]`. -/
def examplePage : PlayPage :=
  { ratingBarTexts := some ["2", "1", "1", "0", "0"], descriptionLength := 12 }

/-- The statistics record `getPlayStats` produces for `examplePage`. -/
def exampleStats : RatingStatistics :=
  { starCounts := [0, 0, 1, 1, 2]
    play_star_mean := ((17 : Int) : ℚ) / ((4 : Int) : ℚ)
    play_star_count := 4
    play_description_length := 12 }

/-- A world where the Play page has no ratings histogram but a source
tarball link exists. -/
def noRatingWorld : AppWorld :=
  { workspaceExists := false
    ratingFetch := .ok { ratingBarTexts := none, descriptionLength := 0 }
    detailFetch := .ok (some "https://example.org/app.tar.gz") }

/-- A world with usable rating data but no `source tarball` anchor on the
detail page. -/
def noLinkWorld : AppWorld :=
  { workspaceExists := false
    ratingFetch := .ok examplePage
    detailFetch := .ok none }

/-- A world with usable rating data where the detail-page fetch inside
`getDownloadLink` raises an HTTP error. -/
def detailErrorWorld : AppWorld :=
  { workspaceExists := false
    ratingFetch := .ok examplePage
    detailFetch := .httpError }

/-- Modelled from the spec's words for the package-identifier derivation:
the text before the first occurrence of `pat`, the whole string when `pat`
does not occur. -/
def beforeFirstOcc : List Char → List Char → List Char
  | [], _ => []
  | c :: rest, pat => if pat.isPrefixOf (c :: rest) then [] else c :: beforeFirstOcc rest pat

/-- Modelled from the spec's words: the claimed derivation that removes the
repository prefix and truncates at the FIRST occurrence of the page-number
marker, to be compared with `prefixFromLink`. -/
def prefixFromLinkSpecFirst (s : String) : String :=
  let s1 := removeFirstOcc s.data repoPrefix
  String.mk (if containsSub repoSuffix s1 then beforeFirstOcc s1 repoSuffix else s1)

/-- A detail link in which the page-number marker occurs twice, separating
the first-occurrence and last-occurrence truncations. -/
def doubleMarkerLink : String :=
  "https://f-droid.org/repository/browse/?fdid=a&fdpage=1&fdpage=2"

/-! ## Helper lemmas -/

/-- A list of length five is a literal five-element list. -/
lemma length_eq_five (l : List Int) (h : l.length = 5) :
    ∃ a b c d e, l = [a, b, c, d, e] := by
  match l, h with
  | [a, b, c, d, e], _ => exact ⟨a, b, c, d, e, rfl⟩

/-- `weightedSum` with starting weight 1 on five counts. -/
lemma weightedSum_five (a b c d e : Int) :
    weightedSum 1 [a, b, c, d, e] = a + 2 * b + 3 * c + 4 * d + 5 * e := by
  simp [weightedSum]; ring

/-- Evaluation of `getPlayStats` on the concrete five-bar fixture. -/
lemma getPlayStats_examplePage : getPlayStats (.ok examplePage) = .ok (some exampleStats) := by
  have hp : (["2", "1", "1", "0", "0"] : List String).mapM parseCount = some [2, 1, 1, 0, 0] := by
    decide
  simp only [getPlayStats, examplePage, hp]
  rw [if_neg (by decide)]
  norm_num [exampleStats, weightedSum]

/-- A successful `List.isPrefixOf` test yields an append decomposition. -/
lemma exists_append_of_isPrefixOf {p l : List Char} (h : p.isPrefixOf l) :
    ∃ t, p ++ t = l := by
  induction p generalizing l with
  | nil => exact ⟨l, rfl⟩
  | cons a p ih =>
    cases l with
    | nil => simp [List.isPrefixOf] at h
    | cons b l =>
      simp only [List.isPrefixOf, Bool.and_eq_true, beq_iff_eq] at h
      obtain ⟨hab, h2⟩ := h
      obtain ⟨t, ht⟩ := ih h2
      subst hab
      exact ⟨t, by rw [List.cons_append, ht]⟩

/-- What a `some` answer of `lastMatchFrom` means: a match at the returned
index and no match at any larger index within the search bound. -/
lemma lastMatchFrom_some {s pat : List Char} {n i : Nat}
    (h : lastMatchFrom s pat n = some i) :
    pat.isPrefixOf (s.drop i) ∧ i ≤ n ∧
      ∀ j, i < j → j ≤ n → ¬ pat.isPrefixOf (s.drop j) := by
  induction n with
  | zero =>
    unfold lastMatchFrom at h
    by_cases hp : pat.isPrefixOf s
    · rw [if_pos hp] at h
      injection h with h; subst h
      exact ⟨by simpa using hp, Nat.le_refl 0, fun j hj hj' => (by omega : False).elim⟩
    · rw [if_neg hp] at h; cases h
  | succ n ih =>
    unfold lastMatchFrom at h
    by_cases hp : pat.isPrefixOf (s.drop (n + 1))
    · rw [if_pos hp] at h
      injection h with h; subst h
      exact ⟨hp, Nat.le_refl _, fun j hj hj' => (by omega : False).elim⟩
    · rw [if_neg hp] at h
      obtain ⟨h1, h2, h3⟩ := ih h
      refine ⟨h1, by omega, fun j hj hj' => ?_⟩
      rcases Nat.lt_or_ge j (n + 1) with hlt | hge
      · exact h3 j hj (by omega)
      · have hj1 : j = n + 1 := by omega
        subst hj1; exact hp

/-- A `none` answer of `lastMatchFrom` means no match anywhere within the
search bound. -/
lemma lastMatchFrom_none {s pat : List Char} {n : Nat}
    (h : lastMatchFrom s pat n = none) :
    ∀ j, j ≤ n → ¬ pat.isPrefixOf (s.drop j) := by
  induction n with
  | zero =>
    unfold lastMatchFrom at h
    by_cases hp : pat.isPrefixOf s
    · rw [if_pos hp] at h; cases h
    · intro j hj
      have hj0 : j = 0 := by omega
      subst hj0; simpa using hp
  | succ n ih =>
    unfold lastMatchFrom at h
    by_cases hp : pat.isPrefixOf (s.drop (n + 1))
    · rw [if_pos hp] at h; cases h
    · rw [if_neg hp] at h
      intro j hj
      rcases Nat.lt_or_ge j (n + 1) with hlt | hge
      · exact ih h j (by omega)
      · have hj1 : j = n + 1 := by omega
        subst hj1; exact hp

/-- Containment yields a match position. -/
lemma containsSub_exists {pat s : List Char} (h : containsSub pat s = true) :
    ∃ j, j ≤ s.length ∧ pat.isPrefixOf (s.drop j) := by
  induction s with
  | nil =>
    refine ⟨0, Nat.le_refl 0, ?_⟩
    unfold containsSub at h
    simpa using h
  | cons c rest ih =>
    simp only [containsSub, Bool.or_eq_true] at h
    rcases h with hp | hc
    · exact ⟨0, by omega, by simpa using hp⟩
    · obtain ⟨j, hj, hpre⟩ := ih hc
      refine ⟨j + 1, by simp only [List.length_cons]; omega, ?_⟩
      simpa [List.drop_succ_cons] using hpre

/-- A nonempty pattern never matches at the empty string. -/
lemma isPrefixOf_nil_false {pat : List Char} (hne : pat ≠ []) :
    pat.isPrefixOf ([] : List Char) = false := by
  cases pat with
  | nil => exact absurd rfl hne
  | cons c cs => rfl

/-- `rsplitBefore` splits at the LAST occurrence of the pattern: the input
decomposes as result, pattern, tail, with no further match strictly after
the split point. -/
lemma rsplitBefore_spec (s1 pat : List Char) (hne : pat ≠ [])
    (h : containsSub pat s1 = true) :
    ∃ t : List Char,
      s1 = rsplitBefore s1 pat ++ pat ++ t ∧
      ∀ k : Nat, ¬ pat.isPrefixOf ((pat ++ t).drop (k + 1)) := by
  obtain ⟨j, hj, hpre⟩ := containsSub_exists h
  cases hlast : lastMatchFrom s1 pat s1.length with
  | none => exact absurd hpre (lastMatchFrom_none hlast j hj)
  | some i =>
    obtain ⟨h1, h2, h3⟩ := lastMatchFrom_some hlast
    have hres : rsplitBefore s1 pat = s1.take i := by
      simp [rsplitBefore, hlast]
    obtain ⟨t, ht⟩ := exists_append_of_isPrefixOf h1
    refine ⟨t, ?_, ?_⟩
    · rw [hres, List.append_assoc, ht]
      exact (List.take_append_drop i s1).symm
    · intro k
      have hdrop : (pat ++ t).drop (k + 1) = s1.drop (i + (k + 1)) := by
        rw [ht, List.drop_drop]
      rw [hdrop]
      rcases le_or_lt (i + (k + 1)) s1.length with hle | hgt
      · exact h3 (i + (k + 1)) (by omega) hle
      · rw [List.drop_eq_nil_of_le (by omega)]
        simp [isPrefixOf_nil_false hne]

/-! ## Claim theorems -/

/-- C1: for a rating histogram whose five bar texts parse (after stripping
thousands separators) to the on-page most-stars-first counts
`[c5,c4,c3,c2,c1]` — ascending counts `[c1..c5]` after the reversal — with
positive total, `getPlayStats` produces a record whose weighted mean is
`(c1*1+c2*2+c3*3+c4*4+c5*5)/(c1+c2+c3+c4+c5)`. -/
theorem getPlayStats_weighted_mean (page : PlayPage) (texts : List String)
    (c1 c2 c3 c4 c5 : Int)
    (hbar : page.ratingBarTexts = some texts)
    (hparse : texts.mapM parseCount = some [c5, c4, c3, c2, c1])
    (hpos : 0 < c1 + c2 + c3 + c4 + c5) :
    ∃ s : RatingStatistics,
      getPlayStats (.ok page) = .ok (some s) ∧
      s.play_star_mean =
        ((c1 * 1 + c2 * 2 + c3 * 3 + c4 * 4 + c5 * 5 : Int) : ℚ) /
          ((c1 + c2 + c3 + c4 + c5 : Int) : ℚ) := by
  have hne : ¬ (([c5, c4, c3, c2, c1] : List Int).reverse.sum = (0 : Int)) := by
    simp; omega
  have hrev : ([c5, c4, c3, c2, c1] : List Int).reverse = [c1, c2, c3, c4, c5] := by simp
  have hnum : weightedSum 1 [c1, c2, c3, c4, c5] = c1 * 1 + c2 * 2 + c3 * 3 + c4 * 4 + c5 * 5 := by
    simp [weightedSum]; ring
  have hden : ([c1, c2, c3, c4, c5] : List Int).sum = c1 + c2 + c3 + c4 + c5 := by
    simp [List.sum_cons, List.sum_nil]; ring
  refine ⟨{ starCounts := [c1, c2, c3, c4, c5]
            play_star_mean := ((c1 * 1 + c2 * 2 + c3 * 3 + c4 * 4 + c5 * 5 : Int) : ℚ) /
              ((c1 + c2 + c3 + c4 + c5 : Int) : ℚ)
            play_star_count := c1 + c2 + c3 + c4 + c5
            play_description_length := page.descriptionLength }, ?_, rfl⟩
  simp only [getPlayStats, hbar, hparse, if_neg hne, hrev, hnum, hden]
  rw [if_neg (show ¬(c1 + c2 + c3 + c4 + c5 = (0 : Int)) by omega)]

/-- C1 witness: the fixture with ascending counts `[0,0,1,1,2]` has
weighted mean `4.25`. -/
theorem getPlayStats_weighted_mean_witness :
    ∃ s : RatingStatistics,
      getPlayStats (.ok { ratingBarTexts := some ["2", "1", "1", "0", "0"],
                          descriptionLength := 0 }) = .ok (some s) ∧
      s.play_star_mean = 4.25 := by
  obtain ⟨s, h1, h2⟩ := getPlayStats_weighted_mean
    { ratingBarTexts := some ["2", "1", "1", "0", "0"], descriptionLength := 0 }
    ["2", "1", "1", "0", "0"] 0 0 1 1 2 rfl (by decide) (by decide)
  refine ⟨s, h1, ?_⟩
  rw [h2]; norm_num

/-- C2: with parseable bar texts, `getPlayStats` returns absent (and
produces no record) exactly when the fetch HTTP-errors, the histogram
container is missing, or the histogram total is zero. -/
theorem getPlayStats_absent_iff (fetch : FetchResult PlayPage)
    (hwf : ∀ p ts, fetch = .ok p → p.ratingBarTexts = some ts → (ts.mapM parseCount).isSome) :
    getPlayStats fetch = .ok none ↔
      (fetch = .httpError
       ∨ (∃ p, fetch = .ok p ∧ p.ratingBarTexts = none)
       ∨ (∃ p ts cs, fetch = .ok p ∧ p.ratingBarTexts = some ts ∧
            ts.mapM parseCount = some cs ∧ cs.sum = 0)) := by
  cases fetch with
  | httpError => simp [getPlayStats]
  | ok p =>
    cases hbar : p.ratingBarTexts with
    | none => simp [getPlayStats, hbar]
    | some ts =>
      have hps := hwf p ts rfl hbar
      cases hparse : ts.mapM parseCount with
      | none => rw [hparse] at hps; simp at hps
      | some cs =>
        simp only [getPlayStats, hbar, hparse]
        by_cases hz : cs.reverse.sum = (0 : Int)
        · rw [if_pos hz]
          constructor
          · intro _
            refine Or.inr (Or.inr ⟨p, ts, cs, rfl, hbar, hparse, ?_⟩)
            rw [← List.sum_reverse]; exact hz
          · intro _; rfl
        · rw [if_neg hz]
          constructor
          · intro h; exact absurd h (by simp)
          · rintro (h | ⟨p', hp', hnone⟩ | ⟨p', ts', cs', hp', hts', hcs', hsum⟩)
            · exact absurd h (by simp)
            · cases hp'; rw [hbar] at hnone; exact absurd hnone (by simp)
            · cases hp'; rw [hbar] at hts'
              injection hts' with hts'; subst hts'
              rw [hparse] at hcs'; injection hcs' with hcs'; subst hcs'
              rw [← List.sum_reverse] at hsum
              exact absurd hsum hz

/-- C2 witness: an HTTP error on the remote lookup yields absent. -/
theorem getPlayStats_absent_iff_witness :
    getPlayStats (FetchResult.httpError : FetchResult PlayPage) = .ok none :=
  (getPlayStats_absent_iff .httpError (by intro p ts h hts; simp at h)).mpr (Or.inl rfl)

/-- C3 counterexample: when no statistics are available, the orchestrator
skips the app after only the rating fetch — no workspace directory has
been created, contradicting the claimed create-directory-first order and
the claimed leftover incomplete workspace. -/
theorem processApp_noRating_no_mkdir :
    processApp noRatingWorld = .ok (.skippedNoRating, [.fetchRatingPage]) ∧
    Effect.mkdirWorkspace ∉ [Effect.fetchRatingPage] :=
  ⟨rfl, by decide⟩

/-- C3 amended: the orchestrator obtains rating statistics first; a missing
rating aborts the app before any directory is created, while a missing
download link aborts it after the workspace directory and rating file were
written, leaving an incomplete workspace. -/
theorem processApp_rating_before_mkdir (w : AppWorld) (hws : w.workspaceExists = false) :
    (getPlayStats w.ratingFetch = .ok none →
        processApp w = .ok (.skippedNoRating, [.fetchRatingPage]))
    ∧ (∀ s, getPlayStats w.ratingFetch = .ok (some s) → w.detailFetch = .ok none →
        processApp w = .ok (.skippedNoLink,
          [.fetchRatingPage, .mkdirWorkspace, .writeRatingFile, .fetchDetailPage])) := by
  constructor
  · intro h; simp [processApp, hws, h]
  · intro s h hd; simp [processApp, hws, h, hd]

/-- C3 witness: both abort points at concrete worlds. -/
theorem processApp_rating_before_mkdir_witness :
    processApp noRatingWorld = .ok (.skippedNoRating, [.fetchRatingPage]) ∧
    processApp noLinkWorld = .ok (.skippedNoLink,
      [.fetchRatingPage, .mkdirWorkspace, .writeRatingFile, .fetchDetailPage]) :=
  ⟨(processApp_rating_before_mkdir noRatingWorld rfl).1 rfl,
   (processApp_rating_before_mkdir noLinkWorld rfl).2 exampleStats getPlayStats_examplePage rfl⟩

/-- C4 counterexample: on a link with two page-number markers, the code
keeps everything before the LAST marker while the claimed first-occurrence
truncation would keep only the part before the first marker. -/
theorem prefixFromLink_first_occurrence_false :
    prefixFromLink doubleMarkerLink = "a&fdpage=1" ∧
    prefixFromLinkSpecFirst doubleMarkerLink = "a" ∧
    prefixFromLink doubleMarkerLink ≠ prefixFromLinkSpecFirst doubleMarkerLink :=
  ⟨by decide, by decide, by decide⟩

/-- C4 amended: after removing the repository prefix, `prefixFromLink`
truncates at the LAST occurrence of the page-number marker when the marker
is present (the remainder splits as result, marker, tail with no further
marker occurrence after the split point), and is the prefix-stripped
string otherwise. -/
theorem prefixFromLink_truncates_at_last (s : String) :
    (containsSub repoSuffix (removeFirstOcc s.data repoPrefix) = false →
        prefixFromLink s = String.mk (removeFirstOcc s.data repoPrefix))
    ∧ (containsSub repoSuffix (removeFirstOcc s.data repoPrefix) = true →
        ∃ t : List Char,
          removeFirstOcc s.data repoPrefix =
            (prefixFromLink s).data ++ repoSuffix ++ t ∧
          ∀ k : Nat, ¬ repoSuffix.isPrefixOf ((repoSuffix ++ t).drop (k + 1))) := by
  constructor
  · intro h
    simp [prefixFromLink, h]
  · intro h
    obtain ⟨t, ht, hmax⟩ :=
      rsplitBefore_spec (removeFirstOcc s.data repoPrefix) repoSuffix (by decide) h
    refine ⟨t, ?_, hmax⟩
    have hdata : (prefixFromLink s).data =
        rsplitBefore (removeFirstOcc s.data repoPrefix) repoSuffix := by
      simp [prefixFromLink, h]
    rw [hdata]
    exact ht

/-- C4 witness: the last-occurrence decomposition at the concrete
double-marker link. -/
theorem prefixFromLink_truncates_at_last_witness :
    ∃ t : List Char,
      removeFirstOcc doubleMarkerLink.data repoPrefix =
        (prefixFromLink doubleMarkerLink).data ++ repoSuffix ++ t ∧
      ∀ k : Nat, ¬ repoSuffix.isPrefixOf ((repoSuffix ++ t).drop (k + 1)) :=
  (prefixFromLink_truncates_at_last doubleMarkerLink).2 (by decide)

/-- C5 counterexample: the derived archive name for `"My App! 2"` is not
the claimed `"myapp_2.tar.gz"` (each whitespace maps to an underscore). -/
theorem safeArchiveName_spec_example_false :
    safeArchiveName "My App! 2" ≠ "myapp_2.tar.gz" := by decide

/-- C5 amended: the derivation (pure, hence deterministic on every
invocation) yields `"my_app_2.tar.gz"` for display name `"My App! 2"`. -/
theorem safeArchiveName_example :
    safeArchiveName "My App! 2" = "my_app_2.tar.gz" := by decide

/-- C6 counterexample: an HTTP error during the per-app download-link
resolution is not soft — it aborts the whole run. -/
theorem getAllAppsRun_detailHttpError_aborts :
    detailErrorWorld.detailFetch = .httpError ∧
    getAllAppsRun [detailErrorWorld] = .error .detailFetchError :=
  ⟨rfl, rfl⟩

/-- C6 amended: an HTTP error on the rating-source fetch is soft and only
skips the app, but an HTTP error on the download-link resolution is
uncaught and aborts the run. -/
theorem processApp_httpError_cases (w : AppWorld) (hws : w.workspaceExists = false) :
    (w.ratingFetch = .httpError →
        processApp w = .ok (.skippedNoRating, [.fetchRatingPage]))
    ∧ (∀ s, getPlayStats w.ratingFetch = .ok (some s) → w.detailFetch = .httpError →
        processApp w = .error .detailFetchError) := by
  constructor
  · intro h; simp [processApp, hws, h, getPlayStats]
  · intro s h hd; simp [processApp, hws, h, hd]

/-- C6 witness: both HTTP-error outcomes at concrete worlds. -/
theorem processApp_httpError_cases_witness :
    processApp { workspaceExists := false, ratingFetch := .httpError,
                 detailFetch := .ok none } = .ok (.skippedNoRating, [.fetchRatingPage]) ∧
    processApp detailErrorWorld = .error .detailFetchError :=
  ⟨(processApp_httpError_cases _ rfl).1 rfl,
   (processApp_httpError_cases detailErrorWorld rfl).2 exampleStats getPlayStats_examplePage rfl⟩

/-- C7: an interrupt while streaming removes the partially written
destination file and terminates the process with a non-zero status. -/
theorem getPackage_interrupt_cleanup (w : UnpackWorld) :
    ∃ code : Nat, getPackage .interrupted w = .exited code false ∧ code ≠ 0 :=
  ⟨1, rfl, by decide⟩

/-- C8: after unpacking, any directory count other than one fails with the
layout error and performs neither the rename nor the archive deletion;
exactly one directory performs both. -/
theorem getPackage_layout_guard (w : UnpackWorld) :
    (w.dirsInParent.length ≠ 1 → getPackage .completed w = .layoutError false false)
    ∧ (w.dirsInParent.length = 1 → getPackage .completed w = .finished true true) := by
  constructor <;> intro h <;> simp [getPackage, h]

/-- C8 witness: two directories fail, one directory completes. -/
theorem getPackage_layout_guard_witness :
    getPackage .completed { dirsInParent := ["projA", "projB"] } = .layoutError false false ∧
    getPackage .completed { dirsInParent := ["projA"] } = .finished true true :=
  ⟨(getPackage_layout_guard _).1 (by decide), (getPackage_layout_guard _).2 (by decide)⟩

/-- C9: an app whose workspace directory already exists is skipped with no
network requests and no filesystem writes. -/
theorem processApp_existing_skips (w : AppWorld) (h : w.workspaceExists = true) :
    processApp w = .ok (.skippedExisting, []) := by
  simp [processApp, h]

/-- C9 witness: a concrete already-done app. -/
theorem processApp_existing_skips_witness :
    processApp { workspaceExists := true, ratingFetch := .httpError, detailFetch := .httpError }
      = .ok (.skippedExisting, []) :=
  processApp_existing_skips _ rfl

/-- C10: whenever `getPlayStats` produces a record with five per-star
counts (all non-negative), its total equals the sum of the counts, is
strictly positive, and the mean lies in `[1, 5]`. -/
theorem getPlayStats_record_invariants (fetch : FetchResult PlayPage) (s : RatingStatistics)
    (h : getPlayStats fetch = .ok (some s))
    (hlen : s.starCounts.length = 5)
    (hnn : ∀ c ∈ s.starCounts, 0 ≤ c) :
    s.play_star_count = s.starCounts.sum ∧ 0 < s.play_star_count ∧
      1 ≤ s.play_star_mean ∧ s.play_star_mean ≤ 5 := by
  cases fetch with
  | httpError => simp [getPlayStats] at h
  | ok p =>
    cases hbar : p.ratingBarTexts with
    | none => simp [getPlayStats, hbar] at h
    | some ts =>
      cases hparse : ts.mapM parseCount with
      | none =>
        simp only [getPlayStats, hbar, hparse] at h
        exact absurd h (by simp)
      | some cs =>
        simp only [getPlayStats, hbar, hparse] at h
        by_cases hz : cs.reverse.sum = (0 : Int)
        · rw [if_pos hz] at h; simp at h
        · rw [if_neg hz] at h
          simp only [Except.ok.injEq, Option.some.injEq] at h
          subst h
          simp only at hlen hnn ⊢
          obtain ⟨a, b, c, d, e, hl⟩ := length_eq_five _ hlen
          rw [hl] at hnn hz ⊢
          have ha := hnn a (by simp)
          have hb := hnn b (by simp)
          have hc := hnn c (by simp)
          have hd := hnn d (by simp)
          have he := hnn e (by simp)
          have hsum : ([a, b, c, d, e] : List Int).sum = a + b + c + d + e := by
            simp [List.sum_cons, List.sum_nil]; ring
          have hzs : a + b + c + d + e ≠ 0 := by rw [hsum] at hz; exact hz
          have hpos : (0 : Int) < a + b + c + d + e := by omega
          refine ⟨by trivial, ?_, ?_, ?_⟩
          · rw [hsum]; exact hpos
          · rw [weightedSum_five, hsum, one_le_div]
            · exact_mod_cast (by omega : a + b + c + d + e ≤ a + 2 * b + 3 * c + 4 * d + 5 * e)
            · exact_mod_cast hpos
          · rw [weightedSum_five, hsum, div_le_iff₀]
            · exact_mod_cast (by omega :
                a + 2 * b + 3 * c + 4 * d + 5 * e ≤ 5 * (a + b + c + d + e))
            · exact_mod_cast hpos

/-- C10 witness: the invariants at the concrete five-bar fixture. -/
theorem getPlayStats_record_invariants_witness :
    exampleStats.play_star_count = exampleStats.starCounts.sum ∧
      0 < exampleStats.play_star_count ∧
      1 ≤ exampleStats.play_star_mean ∧ exampleStats.play_star_mean ≤ 5 :=
  getPlayStats_record_invariants (.ok examplePage) exampleStats getPlayStats_examplePage
    (by decide) (by decide)

end Fdscrape
